import Mathlib

/-!
Shallow embedding of the divvunspell FST core: the HFST/THFST transducer
facades, the alphabet parser and translator, and the case-handling speller
dispatcher, together with theorems settling the frozen claims about them.

Machine integers are modelled as `Nat` (with an explicit `% 2 ^ 16` or
`% 2 ^ 32` where a Rust cast or wrapping subtraction occurs), `i16` counters
as `Int`, and `f32` weights as their raw 4-byte bit patterns (`Nat`), which
are never interpreted arithmetically by the embedded code. Fallible code
(Rust panics: out-of-bounds `Vec` indexing, `Option::unwrap`, division by
zero) is modelled with `Option`, `none` being the panic.
-/

/-- Modelled from the spec: `src/constants.rs` is not among the sources.
Section 6: `TARGET_TABLE = 1 << 31`, the sentinel separating index-table
states from transition-table states. -/
def TARGET_TABLE : Nat := 2 ^ 31

/-- Modelled from the spec: `src/constants.rs` is not among the sources.
Section 6: `NO_SYMBOL = 0xFFFF`. -/
def NO_SYMBOL : Nat := 0xFFFF

/-- Wrapping `u32` subtraction (release-mode semantics of Rust `a - b`),
used for the `v - TARGET_TABLE` adjustment in `next`. -/
def u32sub (a b : Nat) : Nat := (a + 2 ^ 32 - b) % 2 ^ 32

/-- Association-list lookup; the model for `HashMap` lookups. -/
def lookupA {K V : Type} [DecidableEq K] : List (K × V) → K → Option V
  | [], _ => none
  | p :: m, k => if p.1 = k then some p.2 else lookupA m k

/-- Association-list insert with `HashMap::insert` overwrite semantics:
replace the binding when the key is present, append otherwise. -/
def insertA {K V : Type} [DecidableEq K] (m : List (K × V)) (k : K) (v : V) :
    List (K × V) :=
  if (lookupA m k).isSome then m.map (fun p => if p.1 = k then (k, v) else p)
  else m ++ [(k, v)]

/-- Guarded insert, the model for `if !map.contains_key(k) { map.insert(k, v) }`. -/
def insertFresh {K V : Type} [DecidableEq K] (m : List (K × V)) (k : K) (v : V) :
    List (K × V) :=
  if (lookupA m k).isSome then m else m ++ [(k, v)]

/-- Modelled from the spec: `src/types.rs` is not among the sources.
Section 3: FlagOp operator is one of P, N, R, D, C, U. -/
inductive FlagDiacriticOperator : Type
  | P | N | R | D | C | U
deriving DecidableEq

/-- Modelled from the spec: `src/types.rs` is not among the sources.
`FlagDiacriticOperator::from_str`, accepting exactly the six operator
letters; anything else is an error (whose `unwrap` panics). -/
def flagDiacriticOperatorFromStr : List Char → Option FlagDiacriticOperator
  | ['P'] => some .P
  | ['N'] => some .N
  | ['R'] => some .R
  | ['D'] => some .D
  | ['C'] => some .C
  | ['U'] => some .U
  | _ => none

/-- Modelled from the spec: `src/types.rs` is not among the sources.
Section 3: FlagOp is a triple (operator, feature id, value id); value ids
are signed (`ValueNumber = i16`, modelled as `Int`). -/
structure FlagDiacriticOperation : Type where
  operation : FlagDiacriticOperator
  feature : Nat
  value : Int
deriving DecidableEq

/-- UTF-8 byte length of a key, the model of Rust `str::len`. -/
def keyByteLen (k : List Char) : Nat := k.foldl (fun a c => a + c.utf8Size) 0

/-- Lossy UTF-8 decoding restricted to the ASCII range: ASCII bytes decode
to themselves, anything else to the replacement character. Faithful to
`String::from_utf8_lossy` on the ASCII keys the claims concern. -/
def decodeLossyAscii (bs : List Nat) : List Char :=
  bs.map (fun b => if b < 128 then Char.ofNat b else Char.ofNat 0xFFFD)

/-- ASCII bytes of a string literal, for concrete alphabet buffers. -/
def asciiOf (s : String) : List Nat := s.toList.map Char.toNat

/-- Parser state of `TransducerAlphabetParser` (alphabet.rs, lines 20-49);
the buffer cursor is carried separately as the remaining byte list. -/
structure AlphabetParseState : Type where
  key_table : List (List Char)
  flag_state_size : Nat
  length : Nat
  string_to_symbol : List (List Char × Nat)
  operations : List (Nat × FlagDiacriticOperation)
  feature_bucket : List (List Char × Nat)
  value_bucket : List (List Char × Int)
  val_n : Int
  feat_n : Nat
  identity_symbol : Option Nat
  unknown_symbol : Option Nat
deriving DecidableEq

/-- `TransducerAlphabetParser::new` (alphabet.rs, lines 35-49). -/
def AlphabetParseState.init : AlphabetParseState where
  key_table := []
  flag_state_size := 0
  length := 0
  string_to_symbol := []
  operations := []
  feature_bucket := []
  value_bucket := []
  val_n := 0
  feat_n := 0
  identity_symbol := none
  unknown_symbol := none

/-- `TransducerAlphabetParser::handle_special_symbol` (alphabet.rs, lines
51-86). Returns `none` when `FlagDiacriticOperator::from_str(..).unwrap()`
panics on an unrecognized operator. -/
def handleSpecialSymbol (st : AlphabetParseState) (i : Nat) (key : List Char) :
    Option AlphabetParseState :=
  let chunks := List.splitOn '.' key
  match flagDiacriticOperatorFromStr ((chunks.headD []).drop 1) with
  | none => none
  | some fdo =>
    let feature := ((chunks[1]?).getD []).filter (fun x => x ≠ '@')
    let value := ((chunks[2]?).getD []).filter (fun x => x ≠ '@')
    let fb := insertFresh st.feature_bucket feature st.feat_n
    let featN := if (lookupA st.feature_bucket feature).isSome then st.feat_n
      else st.feat_n + 1
    let vb := insertFresh st.value_bucket value st.val_n
    let valN := if (lookupA st.value_bucket value).isSome then st.val_n
      else st.val_n + 1
    let op : FlagDiacriticOperation :=
      { operation := fdo
        feature := (lookupA fb feature).getD 0
        value := (lookupA vb value).getD 0 }
    some { st with
      feature_bucket := fb, feat_n := featN
      value_bucket := vb, val_n := valN
      operations := insertA st.operations i op
      key_table := st.key_table ++ [key] }

def epsilonKey : List Char := "@_EPSILON_SYMBOL_@".toList

def identityKey : List Char := "@_IDENTITY_SYMBOL_@".toList

def unknownKey : List Char := "@_UNKNOWN_SYMBOL_@".toList

/-- One iteration of the key-classification loop in
`TransducerAlphabetParser::parse_inner` (alphabet.rs, lines 100-121).
`none` models the panic of `key.chars().nth(2).unwrap()` on a key such as
`"@@"` whose third character does not exist. -/
def classifyKey (st : AlphabetParseState) (i : Nat) (key : List Char) :
    Option AlphabetParseState :=
  if keyByteLen key > 1 ∧ key.head? = some '@' ∧ key.getLast? = some '@' then
    match key[2]? with
    | none => none
    | some c =>
      if c = '.' then handleSpecialSymbol st i key
      else if key = epsilonKey then
        some { st with
          value_bucket := insertA st.value_bucket [] st.val_n
          key_table := st.key_table ++ [[]]
          val_n := st.val_n + 1 }
      else if key = identityKey then
        some { st with identity_symbol := some i, key_table := st.key_table ++ [key] }
      else if key = unknownKey then
        some { st with unknown_symbol := some i, key_table := st.key_table ++ [key] }
      else
        some { st with key_table := st.key_table ++ [[]] }
  else
    some { st with
      key_table := st.key_table ++ [key]
      string_to_symbol := insertA st.string_to_symbol key i }

/-- The classification loop over the decoded keys, carrying the running
symbol index. -/
def classifyAll (st : AlphabetParseState) (i : Nat) :
    List (List Char) → Option AlphabetParseState
  | [] => some st
  | k :: ks => match classifyKey st i k with
    | none => none
    | some st2 => classifyAll st2 (i + 1) ks

/-- Scan one null-terminated byte string (the inner `while` of
`parse_inner`, alphabet.rs lines 92-96); `none` models the out-of-bounds
panic when no terminator exists. -/
def takeUntilNul : List Nat → Option (List Nat × List Nat)
  | [] => none
  | b :: rest =>
    if b = 0 then some ([], rest)
    else (takeUntilNul rest).map (fun p => (b :: p.1, p.2))

/-- Scan `n` null-terminated key byte strings. -/
def scanKeys : Nat → List Nat → Option (List (List Nat) × List Nat)
  | 0, buf => some ([], buf)
  | n + 1, buf =>
    match takeUntilNul buf with
    | none => none
    | some (k, rest) =>
      (scanKeys n rest).map (fun p => (k :: p.1, p.2))

/-- The trailing null-padding loop of `parse_inner` (alphabet.rs lines
129-131); `none` models the out-of-bounds panic when the buffer ends while
the cursor is still on padding. -/
def skipNuls : List Nat → Option (List Nat)
  | [] => none
  | b :: rest => if b = 0 then skipNuls rest else some (b :: rest)

/-- `TransducerAlphabetParser::parse_inner` (alphabet.rs, lines 88-134),
with the byte scanning and the key classification staged one after the
other (they commute, classification never touches the buffer). -/
def parseInner (buf : List Nat) (symbols : Nat) : Option AlphabetParseState :=
  match scanKeys symbols buf with
  | none => none
  | some (raw, rest) =>
    match classifyAll AlphabetParseState.init 0 (raw.map decodeLossyAscii) with
    | none => none
    | some st =>
      match skipNuls rest with
      | none => none
      | some rest2 =>
        some { st with
          flag_state_size := st.feature_bucket.length
          length := buf.length - rest2.length }

/-- `TransducerAlphabet` (alphabet.rs, lines 8-18). Key strings are carried
as `List Char`. -/
structure TransducerAlphabet : Type where
  key_table : List (List Char)
  initial_symbol_count : Nat
  flag_state_size : Nat
  length : Nat
  string_to_symbol : List (List Char × Nat)
  operations : List (Nat × FlagDiacriticOperation)
  identity_symbol : Option Nat
  unknown_symbol : Option Nat
deriving DecidableEq

/-- `TransducerAlphabetParser::parse` (alphabet.rs, lines 136-150). -/
def TransducerAlphabet.parse (buf : List Nat) (symbols : Nat) :
    Option TransducerAlphabet :=
  (parseInner buf symbols).map (fun p =>
    { key_table := p.key_table
      initial_symbol_count := symbols
      flag_state_size := p.flag_state_size
      length := p.length
      string_to_symbol := p.string_to_symbol
      operations := p.operations
      identity_symbol := p.identity_symbol
      unknown_symbol := p.unknown_symbol })

/-- `Alphabet::is_flag` (alphabet.rs, lines 176-178). -/
def TransducerAlphabet.is_flag (a : TransducerAlphabet) (symbol : Nat) : Bool :=
  (lookupA a.operations symbol).isSome

/-- `Alphabet::add_symbol` (alphabet.rs, lines 180-184); the
`key_table.len() as u16` cast is the explicit `% 2 ^ 16`. -/
def TransducerAlphabet.add_symbol (a : TransducerAlphabet) (s : List Char) :
    TransducerAlphabet :=
  { a with
    string_to_symbol := insertA a.string_to_symbol s (a.key_table.length % 2 ^ 16)
    key_table := a.key_table ++ [s] }

/-- One iteration of the loop in `create_translator_from` (alphabet.rs,
lines 213-221), acting on the (lexicon alphabet, translator) pair. -/
def ctfStep (st : TransducerAlphabet × List Nat) (fromSym : List Char) :
    TransducerAlphabet × List Nat :=
  match lookupA st.1.string_to_symbol fromSym with
  | some sym => (st.1, st.2 ++ [sym])
  | none =>
    (st.1.add_symbol fromSym, st.2 ++ [st.1.key_table.length % 2 ^ 16])

/-- `Alphabet::create_translator_from` (alphabet.rs, lines 206-224), given
the mutator's key table; returns the updated lexicon alphabet and the
translator. -/
def TransducerAlphabet.create_translator_from (lex : TransducerAlphabet)
    (fromKeys : List (List Char)) : TransducerAlphabet × List Nat :=
  (fromKeys.drop 1).foldl ctfStep (lex, [0])

/-- Well-formedness of an alphabet's reverse map: every recorded symbol is
a valid key-table index. Holds for parsed alphabets and is preserved by
`add_symbol`. -/
def wfAlphabet (a : TransducerAlphabet) : Prop :=
  ∀ p ∈ a.string_to_symbol, p.2 < a.key_table.length

instance (a : TransducerAlphabet) : Decidable (wfAlphabet a) := by
  unfold wfAlphabet
  infer_instance

/-- Bounds-checked random access into a table, the model of the
length-checked record reads of section 4.3 ("out-of-range returns no
value"). Defined by a length comparison rather than list recursion so
that sentinel-sized indices such as `2 ^ 31` evaluate. -/
def recAt {α : Type} (l : List α) (i : Nat) : Option α :=
  if h : i < l.length then some (l.get ⟨i, h⟩) else none

/-- Modelled from the spec: `src/transducer/hfst/index_table.rs` is not
among the sources. Section 3: an 8-byte index record holds `input_symbol :
u16`, padding, and a 4-byte field read as either `target` (u32) or
`final_weight` (f32 bit pattern). -/
structure IndexRecord : Type where
  input_symbol : Nat
  weight_or_target : Nat
deriving DecidableEq

/-- Modelled from the spec: `IndexTable::input_symbol`, bounds-checked. -/
def idxInputSymbol (tbl : List IndexRecord) (i : Nat) : Option Nat :=
  (recAt tbl i).map (fun r => r.input_symbol)

/-- Modelled from the spec: `IndexTable::target`, bounds-checked. -/
def idxTarget (tbl : List IndexRecord) (i : Nat) : Option Nat :=
  (recAt tbl i).map (fun r => r.weight_or_target)

/-- Modelled from the spec: `IndexTable::final_weight`, the same 4 bytes
read as an `f32` bit pattern, bounds-checked. -/
def idxFinalWeight (tbl : List IndexRecord) (i : Nat) : Option Nat :=
  (recAt tbl i).map (fun r => r.weight_or_target)

/-- Modelled from the spec: `IndexTable::is_final`; section 3: a final
index record has `input_symbol == NO_SYMBOL` and `target == 1`. -/
def idxIsFinal (tbl : List IndexRecord) (i : Nat) : Bool :=
  idxInputSymbol tbl i == some NO_SYMBOL && idxTarget tbl i == some 1

/-- Modelled from the spec: `src/transducer/hfst/transition_table.rs` is
not among the sources. Section 3: a 12-byte transition record holds
`input_symbol : u16`, `output_symbol : u16`, and a 4-byte field read as
either `target` (u32) or `weight` (f32 bit pattern). -/
structure TransRecord : Type where
  input_symbol : Nat
  output_symbol : Nat
  weight_or_target : Nat
deriving DecidableEq

/-- Modelled from the spec: `TransitionTable::input_symbol`, bounds-checked. -/
def transInputSymbol (tbl : List TransRecord) (i : Nat) : Option Nat :=
  (recAt tbl i).map (fun r => r.input_symbol)

/-- Modelled from the spec: `TransitionTable::output_symbol`, bounds-checked. -/
def transOutputSymbol (tbl : List TransRecord) (i : Nat) : Option Nat :=
  (recAt tbl i).map (fun r => r.output_symbol)

/-- Modelled from the spec: `TransitionTable::target`, bounds-checked. -/
def transTarget (tbl : List TransRecord) (i : Nat) : Option Nat :=
  (recAt tbl i).map (fun r => r.weight_or_target)

/-- Modelled from the spec: `TransitionTable::weight`, the 4-byte field as
an `f32` bit pattern, bounds-checked. -/
def transWeight (tbl : List TransRecord) (i : Nat) : Option Nat :=
  (recAt tbl i).map (fun r => r.weight_or_target)

/-- Modelled from the spec: `TransitionTable::is_final`; section 3: a
final transition record has both symbols equal to `NO_SYMBOL`. -/
def transIsFinal (tbl : List TransRecord) (i : Nat) : Bool :=
  transInputSymbol tbl i == some NO_SYMBOL &&
    transOutputSymbol tbl i == some NO_SYMBOL

/-- Modelled from the spec: `src/transducer/symbol_transition.rs` is not
among the sources. Section 4.3: `symbol_transition(i)` bundles (target,
output_symbol, weight). -/
structure SymbolTransition : Type where
  target : Option Nat
  output_symbol : Option Nat
  weight : Option Nat
deriving DecidableEq

/-- Modelled from the spec: `TransitionTable::symbol_transition`. -/
def transSymbolTransition (tbl : List TransRecord) (i : Nat) : SymbolTransition :=
  { target := transTarget tbl i
    output_symbol := transOutputSymbol tbl i
    weight := transWeight tbl i }

/-- `HfstTransducer` (hfst/mod.rs, lines 23-29), reduced to its two record
tables and its alphabet; header and raw buffer do not enter any query. -/
structure HfstTransducer : Type where
  index_table : List IndexRecord
  transition_table : List TransRecord
  alphabet : TransducerAlphabet
deriving DecidableEq

/-- `Transducer::is_final` for `HfstTransducer` (hfst/mod.rs, lines 166-173). -/
def HfstTransducer.is_final (t : HfstTransducer) (i : Nat) : Bool :=
  if TARGET_TABLE ≤ i then transIsFinal t.transition_table (i - TARGET_TABLE)
  else idxIsFinal t.index_table i

/-- `Transducer::final_weight` for `HfstTransducer` (hfst/mod.rs, lines 175-182). -/
def HfstTransducer.final_weight (t : HfstTransducer) (i : Nat) : Option Nat :=
  if TARGET_TABLE ≤ i then transWeight t.transition_table (i - TARGET_TABLE)
  else idxFinalWeight t.index_table i

/-- `Transducer::has_transitions` for `HfstTransducer` (hfst/mod.rs, lines 184-202). -/
def HfstTransducer.has_transitions (t : HfstTransducer) (i : Nat)
    (s : Option Nat) : Bool :=
  match s with
  | none => false
  | some sym =>
    if TARGET_TABLE ≤ i then
      match transInputSymbol t.transition_table (i - TARGET_TABLE) with
      | some res => sym == res
      | none => false
    else
      match idxInputSymbol t.index_table (i + sym) with
      | some res => sym == res
      | none => false

/-- `Transducer::has_epsilons_or_flags` for `HfstTransducer` (hfst/mod.rs,
lines 204-216). -/
def HfstTransducer.has_epsilons_or_flags (t : HfstTransducer) (i : Nat) : Bool :=
  if TARGET_TABLE ≤ i then
    match transInputSymbol t.transition_table (i - TARGET_TABLE) with
    | some sym => sym == 0 || t.alphabet.is_flag sym
    | none => false
  else idxInputSymbol t.index_table i == some 0

/-- `Transducer::take_epsilons` for `HfstTransducer` (hfst/mod.rs, lines
218-225): the transition table is read at `i` itself, with no
`TARGET_TABLE` dispatch. -/
def HfstTransducer.take_epsilons (t : HfstTransducer) (i : Nat) :
    Option SymbolTransition :=
  if transInputSymbol t.transition_table i = some 0 then
    some (transSymbolTransition t.transition_table i)
  else none

/-- `Transducer::take_epsilons_and_flags` for `HfstTransducer`
(hfst/mod.rs, lines 227-238): again read at `i` itself. -/
def HfstTransducer.take_epsilons_and_flags (t : HfstTransducer) (i : Nat) :
    Option SymbolTransition :=
  match transInputSymbol t.transition_table i with
  | some sym =>
    if sym ≠ 0 ∧ ¬t.alphabet.is_flag sym then none
    else some (transSymbolTransition t.transition_table i)
  | none => none

/-- `Transducer::take_non_epsilons` for `HfstTransducer` (hfst/mod.rs,
lines 240-255): again read at `i` itself. -/
def HfstTransducer.take_non_epsilons (t : HfstTransducer) (i symbol : Nat) :
    Option SymbolTransition :=
  match transInputSymbol t.transition_table i with
  | some inputSym =>
    if inputSym ≠ symbol then none
    else some (transSymbolTransition t.transition_table i)
  | none => none

/-- `Transducer::next` for `HfstTransducer` (hfst/mod.rs, lines 257-266);
`v - TARGET_TABLE` is the wrapping `u32` subtraction. -/
def HfstTransducer.next (t : HfstTransducer) (i symbol : Nat) : Option Nat :=
  if TARGET_TABLE ≤ i then some (i - TARGET_TABLE + 1)
  else
    match idxTarget t.index_table (i + 1 + symbol) with
    | some v => some (u32sub v TARGET_TABLE)
    | none => none

/-- `Transducer::transition_input_symbol` for `HfstTransducer`
(hfst/mod.rs, lines 268-271). -/
def HfstTransducer.transition_input_symbol (t : HfstTransducer) (i : Nat) :
    Option Nat :=
  transInputSymbol t.transition_table i

/-- `ThfstTransducer` (thfst/mod.rs, lines 60-67): the paged variant,
holding each table as a list of equal-sized chunks. -/
structure ThfstTransducer : Type where
  index_tables : List (List IndexRecord)
  indexes_per_chunk : Nat
  transition_tables : List (List TransRecord)
  transitions_per_chunk : Nat
  alphabet : TransducerAlphabet
deriving DecidableEq

/-- `transition_rel_index`/`index_rel_index` (thfst/mod.rs, lines 125-137)
combined with the `Vec` page indexing at each use site: `none` models the
division-by-zero panic (`per = 0`) or the out-of-range page panic. The
relative index is `x - per * (x / per)` exactly as computed there. -/
def chunkAt {α : Type} (chunks : List (List α)) (per x : Nat) :
    Option (List α × Nat) :=
  if per = 0 then none
  else (recAt chunks (x / per)).map (fun tbl => (tbl, x - per * (x / per)))

/-- `Transducer::is_final` for `ThfstTransducer` (thfst/mod.rs, lines 159-168). -/
def ThfstTransducer.is_final (t : ThfstTransducer) (i : Nat) : Option Bool :=
  if TARGET_TABLE ≤ i then
    (chunkAt t.transition_tables t.transitions_per_chunk (i - TARGET_TABLE)).map
      (fun p => transIsFinal p.1 p.2)
  else
    (chunkAt t.index_tables t.indexes_per_chunk i).map
      (fun p => idxIsFinal p.1 p.2)

/-- `Transducer::final_weight` for `ThfstTransducer` (thfst/mod.rs, lines 170-179). -/
def ThfstTransducer.final_weight (t : ThfstTransducer) (i : Nat) :
    Option (Option Nat) :=
  if TARGET_TABLE ≤ i then
    (chunkAt t.transition_tables t.transitions_per_chunk (i - TARGET_TABLE)).map
      (fun p => transWeight p.1 p.2)
  else
    (chunkAt t.index_tables t.indexes_per_chunk i).map
      (fun p => idxFinalWeight p.1 p.2)

/-- `Transducer::has_transitions` for `ThfstTransducer` (thfst/mod.rs,
lines 181-201). -/
def ThfstTransducer.has_transitions (t : ThfstTransducer) (i : Nat)
    (s : Option Nat) : Option Bool :=
  match s with
  | none => some false
  | some sym =>
    if TARGET_TABLE ≤ i then
      (chunkAt t.transition_tables t.transitions_per_chunk (i - TARGET_TABLE)).map
        (fun p =>
          match transInputSymbol p.1 p.2 with
          | some res => sym == res
          | none => false)
    else
      (chunkAt t.index_tables t.indexes_per_chunk (i + sym)).map
        (fun p =>
          match idxInputSymbol p.1 p.2 with
          | some res => sym == res
          | none => false)

/-- `Transducer::has_epsilons_or_flags` for `ThfstTransducer`
(thfst/mod.rs, lines 203-219). -/
def ThfstTransducer.has_epsilons_or_flags (t : ThfstTransducer) (i : Nat) :
    Option Bool :=
  if TARGET_TABLE ≤ i then
    (chunkAt t.transition_tables t.transitions_per_chunk (i - TARGET_TABLE)).map
      (fun p =>
        match transInputSymbol p.1 p.2 with
        | some sym => sym == 0 || t.alphabet.is_flag sym
        | none => false)
  else
    (chunkAt t.index_tables t.indexes_per_chunk i).map
      (fun p => idxInputSymbol p.1 p.2 == some 0)

/-- `Transducer::take_epsilons` for `ThfstTransducer` (thfst/mod.rs, lines
221-230). -/
def ThfstTransducer.take_epsilons (t : ThfstTransducer) (i : Nat) :
    Option (Option SymbolTransition) :=
  (chunkAt t.transition_tables t.transitions_per_chunk i).map
    (fun p =>
      if transInputSymbol p.1 p.2 = some 0 then
        some (transSymbolTransition p.1 p.2)
      else none)

/-- `Transducer::take_epsilons_and_flags` for `ThfstTransducer`
(thfst/mod.rs, lines 232-245). -/
def ThfstTransducer.take_epsilons_and_flags (t : ThfstTransducer) (i : Nat) :
    Option (Option SymbolTransition) :=
  (chunkAt t.transition_tables t.transitions_per_chunk i).map
    (fun p =>
      match transInputSymbol p.1 p.2 with
      | some sym =>
        if sym ≠ 0 ∧ ¬t.alphabet.is_flag sym then none
        else some (transSymbolTransition p.1 p.2)
      | none => none)

/-- `Transducer::take_non_epsilons` for `ThfstTransducer` (thfst/mod.rs,
lines 247-263). -/
def ThfstTransducer.take_non_epsilons (t : ThfstTransducer) (i symbol : Nat) :
    Option (Option SymbolTransition) :=
  (chunkAt t.transition_tables t.transitions_per_chunk i).map
    (fun p =>
      match transInputSymbol p.1 p.2 with
      | some inputSym =>
        if inputSym ≠ symbol then none
        else some (transSymbolTransition p.1 p.2)
      | none => none)

/-- `Transducer::next` for `ThfstTransducer` (thfst/mod.rs, lines 265-278). -/
def ThfstTransducer.next (t : ThfstTransducer) (i symbol : Nat) :
    Option (Option Nat) :=
  if TARGET_TABLE ≤ i then some (some (i - TARGET_TABLE + 1))
  else
    (chunkAt t.index_tables t.indexes_per_chunk (i + 1 + symbol)).map
      (fun p =>
        match idxTarget p.1 p.2 with
        | some v => some (u32sub v TARGET_TABLE)
        | none => none)

/-- `Transducer::transition_input_symbol` for `ThfstTransducer`
(thfst/mod.rs, lines 153-157). -/
def ThfstTransducer.transition_input_symbol (t : ThfstTransducer) (i : Nat) :
    Option (Option Nat) :=
  (chunkAt t.transition_tables t.transitions_per_chunk i).map
    (fun p => transInputSymbol p.1 p.2)

/-- `SpellerConfig` (speller/mod.rs, lines 15-24); weights are rationals
standing for the finite `f32` values the search manipulates. -/
structure SpellerConfig : Type where
  n_best : Option Nat
  max_weight : Option ℚ
  beam : Option ℚ
  case_handling : Bool
  pool_start : Nat
  pool_max : Nat
  seen_node_sample_rate : Nat
deriving DecidableEq

/-- Modelled from the spec: `src/speller/suggestion.rs` is not among the
sources. A suggestion is a (value, weight) pair. -/
structure Suggestion : Type where
  value : String
  weight : ℚ
deriving DecidableEq

/-- Modelled from the spec: the `Ord` used by `Vec::sort` in
`suggest_caps_merging`; section 8: the result list is sorted by
(weight ascending, value ascending). -/
def suggLE (a b : Suggestion) : Bool :=
  decide (a.weight < b.weight) ||
    (decide (a.weight = b.weight) && decide (a.value ≤ b.value))

/-- The case-handling helpers of `crate::tokenizer::case_handling` used by
the speller; that module is not among the sources, so the speller is
parameterized over them (the claims hold for every instantiation). -/
structure CaseFuns : Type where
  word_variants : List String → String → List String
  is_all_caps : String → Bool
  is_first_caps : String → Bool
  upper_case : String → String
  upper_first : String → String

/-- The recasing step shared by `suggest_caps_merging` (speller/mod.rs,
lines 140-159) and `suggest_caps` (lines 200-219): upper-case every
suggestion for an all-caps reference word, upper-case the first character
for a first-capital one, otherwise keep the suggestions as they are. -/
def recase (cf : CaseFuns) (refWord : String) (suggs : List Suggestion) :
    List Suggestion :=
  if cf.is_all_caps refWord then
    suggs.map (fun x => { x with value := cf.upper_case x.value })
  else if cf.is_first_caps refWord then
    suggs.map (fun x => { x with value := cf.upper_first x.value })
  else suggs

/-- The `best.entry(..).and_modify(..).or_insert(..)` step of
`suggest_caps_merging` (speller/mod.rs, lines 161-169): keep the minimum
weight per suggestion value. -/
def updateBest (best : List (String × ℚ)) (s : Suggestion) :
    List (String × ℚ) :=
  match lookupA best s.value with
  | some w => insertA best s.value (if s.weight < w then s.weight else w)
  | none => best ++ [(s.value, s.weight)]

/-- `Speller::suggest_caps_merging` (speller/mod.rs, lines 125-185),
parameterized over the worker search `search` (speller/worker.rs is not
among the sources): search each variant, recase, merge by minimum weight
per value, sort by (weight, value), truncate to `n_best`. -/
def suggest_caps_merging (cf : CaseFuns)
    (search : String → SpellerConfig → List Suggestion)
    (ref_word : String) (words : List String) (config : SpellerConfig) :
    List Suggestion :=
  let best := words.foldl
    (fun best word =>
      let suggestions := search word config
      if suggestions.isEmpty then best
      else (recase cf ref_word suggestions).foldl updateBest best)
    []
  let out := (best.map (fun p => Suggestion.mk p.1 p.2)).mergeSort suggLE
  match config.n_best with
  | some n => out.take n
  | none => out

/-- `Speller::suggest_caps` (speller/mod.rs, lines 187-224): search the
variants in order and return the first non-empty suggestion list, recased. -/
def suggest_caps (cf : CaseFuns)
    (search : String → SpellerConfig → List Suggestion)
    (ref_word : String) : List String → SpellerConfig → List Suggestion
  | [], _ => []
  | word :: rest, config =>
    let suggestions := search word config
    if suggestions.isEmpty then suggest_caps cf search ref_word rest config
    else recase cf ref_word suggestions

/-- `Speller::suggest_single` (speller/mod.rs, lines 119-123): one search
on the given word. -/
def suggest_single (search : String → SpellerConfig → List Suggestion)
    (word : String) (config : SpellerConfig) : List Suggestion :=
  search word config

/-- `Speller::suggest_with_config` (speller/mod.rs, lines 226-245):
case-handling dispatch on the number of case variants. -/
def suggest_with_config (cf : CaseFuns)
    (search : String → SpellerConfig → List Suggestion)
    (lexicon_key_table : List String) (word : String)
    (config : SpellerConfig) : List Suggestion :=
  if config.case_handling then
    let words := cf.word_variants lexicon_key_table word
    if words.length = 2 ∨ words.length = 3 then
      suggest_caps_merging cf search word words config
    else suggest_caps cf search word words config
  else suggest_single search word config

/-- A key whose classification registers a value id (bumping `val_n`): a
flag-diacritic-shaped key (`@x.…@`) or the epsilon key. All other keys
leave the value bucket and `val_n` untouched. -/
def registersValue (k : List Char) : Prop :=
  (keyByteLen k > 1 ∧ k.head? = some '@' ∧ k.getLast? = some '@' ∧
    k[2]? = some '.') ∨ k = epsilonKey

instance (k : List Char) : Decidable (registersValue k) := by
  unfold registersValue; infer_instance

/-- The lexicon-alphabet state after `create_translator_from` has processed
mutator symbols `1 .. s - 1` (the loop prefix before symbol `s`). -/
def translatorPrefixState (lex : TransducerAlphabet)
    (fromKeys : List (List Char)) (s : Nat) : TransducerAlphabet :=
  (((fromKeys.drop 1).take (s - 1)).foldl ctfStep (lex, [0])).1

/-- All recased suggestions produced across the searched case variants in
`suggest_caps_merging`, in search order. -/
def mergedPool (cf : CaseFuns)
    (search : String → SpellerConfig → List Suggestion)
    (ref_word : String) (words : List String) (config : SpellerConfig) :
    List Suggestion :=
  (words.map (fun w => recase cf ref_word (search w config))).flatten

/-- A minimal alphabet with one (epsilon) key and no flags, for concrete
instances. -/
def alphW : TransducerAlphabet where
  key_table := [[]]
  initial_symbol_count := 1
  flag_state_size := 0
  length := 0
  string_to_symbol := []
  operations := []
  identity_symbol := none
  unknown_symbol := none

/-- A concrete transducer whose transition table row 0 is an epsilon arc:
under the claimed `TARGET_TABLE` dispatch, `take_epsilons` at state
`TARGET_TABLE` would return that arc; the code returns nothing. -/
def hfstW : HfstTransducer where
  index_table := [⟨5, TARGET_TABLE + 1⟩, ⟨NO_SYMBOL, 1⟩]
  transition_table := [⟨0, 7, 11⟩, ⟨NO_SYMBOL, NO_SYMBOL, 13⟩]
  alphabet := alphW

/-- The paged counterpart of `hfstW`: the same records split into
one-record chunks. -/
def thfstW : ThfstTransducer where
  index_tables := [[⟨5, TARGET_TABLE + 1⟩], [⟨NO_SYMBOL, 1⟩]]
  indexes_per_chunk := 1
  transition_tables := [[⟨0, 7, 11⟩], [⟨NO_SYMBOL, NO_SYMBOL, 13⟩]]
  transitions_per_chunk := 1
  alphabet := alphW

/-- A concrete lexicon alphabet (epsilon plus the key `a`) for the
translator claims. -/
def lexW : TransducerAlphabet where
  key_table := [[], ['a']]
  initial_symbol_count := 2
  flag_state_size := 0
  length := 0
  string_to_symbol := [(['a'], 1)]
  operations := []
  identity_symbol := none
  unknown_symbol := none

/-- A concrete mutator key table (epsilon, `b`, `a`) for the translator
claims: `b` is missing from `lexW` and is freshly appended. -/
def mutKeysW : List (List Char) := [[], ['b'], ['a']]

/-- Concrete case-handling helpers for speller instances: two fixed
variants, no recasing. -/
def cfW : CaseFuns where
  word_variants := fun _ w => [w, String.append w "x"]
  is_all_caps := fun _ => false
  is_first_caps := fun _ => false
  upper_case := id
  upper_first := id

/-- A concrete worker search for speller instances. -/
def searchW : String → SpellerConfig → List Suggestion := fun w _ =>
  if w = "a" then [⟨"x", 3⟩, ⟨"y", 1⟩] else [⟨"x", 2⟩]

/-- A concrete speller configuration with `n_best = 1`. -/
def cfgW : SpellerConfig where
  n_best := some 1
  max_weight := none
  beam := none
  case_handling := true
  pool_start := 128
  pool_max := 128
  seen_node_sample_rate := 20

/-- The parser state produced on the buffer holding the single key
`@_EPSILON_SYMBOL_@` followed by its terminator and one table byte. -/
def epsStateW : AlphabetParseState where
  key_table := [[]]
  flag_state_size := 0
  length := 19
  string_to_symbol := []
  operations := []
  feature_bucket := []
  value_bucket := [([], 0)]
  val_n := 1
  feat_n := 0
  identity_symbol := none
  unknown_symbol := none

/-- The alphabet buffer whose key table is `@U.X@` then
`@_EPSILON_SYMBOL_@`, followed by one nonzero table byte: a flag diacritic
precedes the epsilon key. -/
def bufC9 : List Nat :=
  asciiOf "@U.X@" ++ [0] ++ asciiOf "@_EPSILON_SYMBOL_@" ++ [0, 1]

theorem recAt_eq {α : Type} (l : List α) (i : Nat) : recAt l i = l[i]? := by
  by_cases h : i < l.length
  · simp [recAt, h, List.getElem?_eq_getElem, List.get_eq_getElem]
  · simp [recAt, h, List.getElem?_eq_none (Nat.le_of_not_lt h)]

theorem recAt_cons_succ {α : Type} (c : α) (l : List α) (i : Nat) :
    recAt (c :: l) (i + 1) = recAt l i := by
  rw [recAt_eq, recAt_eq, List.getElem?_cons_succ]

theorem chunkAt_flatten {α : Type} (chunks : List (List α)) (per x : Nat)
    (hlen : ∀ c ∈ chunks, c.length = per) (hp : 0 < per)
    (hx : x < chunks.flatten.length) :
    ∃ p, chunkAt chunks per x = some p ∧
      recAt p.1 p.2 = recAt chunks.flatten x := by
  induction chunks generalizing x with
  | nil => simp at hx
  | cons c cs ih =>
    have hc : c.length = per := hlen c (by simp)
    have hp' : per ≠ 0 := hp.ne'
    by_cases hcase : x < per
    · refine ⟨(c, x), ?_, ?_⟩
      · simp [chunkAt, hp', Nat.div_eq_of_lt hcase, recAt_eq]
      · rw [recAt_eq, recAt_eq, List.flatten_cons, List.getElem?_append,
          if_pos (hc ▸ hcase)]
    · push_neg at hcase
      have hdiv : x / per = (x - per) / per + 1 := Nat.div_eq_sub_div hp hcase
      have hx2 : x - per < cs.flatten.length := by
        have hl : (c :: cs).flatten.length = per + cs.flatten.length := by
          simp [hc]
        omega
      obtain ⟨p, hca, hre⟩ :=
        ih (x - per) (fun d hd => hlen d (List.mem_cons_of_mem c hd)) hx2
      have harith : x - per * ((x - per) / per + 1) =
          x - per - per * ((x - per) / per) := by
        have h1 : per * ((x - per) / per + 1) = per * ((x - per) / per) + per := by
          ring
        omega
      refine ⟨p, ?_, ?_⟩
      · simp only [chunkAt, if_neg hp'] at hca ⊢
        rw [hdiv, recAt_cons_succ, harith]
        exact hca
      · rw [hre, recAt_eq, recAt_eq, List.flatten_cons,
          List.getElem?_append_right (by omega : c.length ≤ x), hc]

theorem lookupA_append {K V : Type} [DecidableEq K] (m l : List (K × V)) (k : K) :
    lookupA (m ++ l) k =
      match lookupA m k with
      | some v => some v
      | none => lookupA l k := by
  induction m with
  | nil => simp [lookupA]
  | cons p m ih =>
    by_cases h : p.1 = k <;> simp [lookupA, h, ih]

theorem lookupA_map_rep {K V : Type} [DecidableEq K] (m : List (K × V))
    (k : K) (v : V) (q : K) :
    lookupA (m.map (fun p => if p.1 = k then (k, v) else p)) q =
      if q = k then (lookupA m k).map (fun _ => v) else lookupA m q := by
  induction m with
  | nil => by_cases h : q = k <;> simp [lookupA, h]
  | cons p m ih =>
    by_cases hp : p.1 = k
    · by_cases hq : q = k
      · subst hq
        simp [lookupA, hp, ih]
      · have hkq : ¬k = q := fun h => hq h.symm
        have hpq : ¬p.1 = q := by rw [hp]; exact hkq
        simp [lookupA, hp, hkq, hq, hpq, ih]
    · by_cases hpq : p.1 = q
      · have hq : ¬q = k := fun h => hp (hpq.trans h)
        simp [lookupA, hp, hpq, hq]
      · simp [lookupA, hp, hpq, ih]

theorem lookupA_insertA {K V : Type} [DecidableEq K] (m : List (K × V))
    (k : K) (v : V) (q : K) :
    lookupA (insertA m k v) q = if q = k then some v else lookupA m q := by
  unfold insertA
  by_cases hs : (lookupA m k).isSome
  · obtain ⟨w, hw⟩ := Option.isSome_iff_exists.mp hs
    rw [if_pos hs, lookupA_map_rep]
    by_cases hq : q = k <;> simp [hq, hw]
  · rw [if_neg hs, lookupA_append]
    have hnone : lookupA m k = none := Option.not_isSome_iff_eq_none.mp hs
    by_cases hq : q = k
    · subst hq; simp [hnone, lookupA]
    · have hkq : ¬k = q := fun h => hq h.symm
      cases h : lookupA m q with
      | none => simp [h, lookupA, hkq, hq]
      | some w => simp [h, hq]

theorem lookupA_eq_none_iff {K V : Type} [DecidableEq K] (m : List (K × V))
    (k : K) : lookupA m k = none ↔ k ∉ m.map Prod.fst := by
  induction m with
  | nil => simp [lookupA]
  | cons p m ih =>
    by_cases h : p.1 = k
    · subst h
      simp [lookupA]
    · have hk : ¬k = p.1 := fun hh => h hh.symm
      simp [lookupA, h, ih, hk]

theorem lookupA_mem_of_nodup {K V : Type} [DecidableEq K] {m : List (K × V)}
    {p : K × V} (hnd : (m.map Prod.fst).Nodup) (hp : p ∈ m) :
    lookupA m p.1 = some p.2 := by
  induction m with
  | nil => simp at hp
  | cons q m ih =>
    rcases List.mem_cons.mp hp with h | h
    · subst h; simp [lookupA]
    · have hne : q.1 ≠ p.1 := by
        intro he
        exact (List.nodup_cons.mp hnd).1 (he ▸ List.mem_map_of_mem Prod.fst h)
      simp [lookupA, hne, ih (List.nodup_cons.mp hnd).2 h]

theorem mem_of_lookupA {K V : Type} [DecidableEq K] {m : List (K × V)}
    {k : K} {v : V} (h : lookupA m k = some v) : (k, v) ∈ m := by
  induction m with
  | nil => simp [lookupA] at h
  | cons p m ih =>
    by_cases hp : p.1 = k
    · simp [lookupA, hp] at h
      exact List.mem_cons.mpr (Or.inl (by rw [← hp, ← h]))
    · simp [lookupA, hp] at h
      exact List.mem_cons.mpr (Or.inr (ih h))

theorem keys_map_rep {K V : Type} [DecidableEq K] (m : List (K × V))
    (k : K) (v : V) :
    (m.map (fun p => if p.1 = k then (k, v) else p)).map Prod.fst =
      m.map Prod.fst := by
  induction m with
  | nil => simp
  | cons p m ih =>
    by_cases hp : p.1 = k <;> simp [hp, ih]

theorem keys_insertA {K V : Type} [DecidableEq K] (m : List (K × V))
    (k : K) (v : V) :
    (insertA m k v).map Prod.fst =
      if (lookupA m k).isSome then m.map Prod.fst
      else m.map Prod.fst ++ [k] := by
  unfold insertA
  by_cases hs : (lookupA m k).isSome
  · rw [if_pos hs, if_pos hs, keys_map_rep]
  · rw [if_neg hs, if_neg hs]
    simp

theorem add_symbol_lookup_self (a : TransducerAlphabet) (k : List Char) :
    lookupA (a.add_symbol k).string_to_symbol k =
      some (a.key_table.length % 2 ^ 16) := by
  simp [TransducerAlphabet.add_symbol, lookupA_insertA]

theorem add_symbol_lookup_mono (a : TransducerAlphabet) (k : List Char)
    (hk : lookupA a.string_to_symbol k = none) (q : List Char) (v : Nat)
    (hv : lookupA a.string_to_symbol q = some v) :
    lookupA (a.add_symbol k).string_to_symbol q = some v := by
  have hne : q ≠ k := by
    rintro rfl
    rw [hk] at hv
    cases hv
  simp [TransducerAlphabet.add_symbol, lookupA_insertA, hne, hv]

theorem ctf_fold_spec (ks : List (List Char)) (a : TransducerAlphabet)
    (t : List Nat) :
    (∀ k v, lookupA a.string_to_symbol k = some v →
      lookupA (ks.foldl ctfStep (a, t)).1.string_to_symbol k = some v)
    ∧ (∀ k ∈ ks, (lookupA (ks.foldl ctfStep (a, t)).1.string_to_symbol k).isSome)
    ∧ (ks.foldl ctfStep (a, t)).2 =
        t ++ ks.map
          (fun k => (lookupA (ks.foldl ctfStep (a, t)).1.string_to_symbol k).getD 0)
    ∧ ∃ ext, (ks.foldl ctfStep (a, t)).1.key_table = a.key_table ++ ext := by
  induction ks generalizing a t with
  | nil => simp
  | cons k ks ih =>
    cases hlk : lookupA a.string_to_symbol k with
    | some v =>
      have hstep : ctfStep (a, t) k = (a, t ++ [v]) := by simp [ctfStep, hlk]
      obtain ⟨mono, alls, htr, hext⟩ := ih a (t ++ [v])
      rw [List.foldl_cons, hstep]
      refine ⟨mono, ?_, ?_, hext⟩
      · intro k' hk'
        rcases List.mem_cons.mp hk' with h | h
        · rw [h]
          exact Option.isSome_iff_exists.mpr ⟨v, mono k v hlk⟩
        · exact alls k' h
      · rw [htr, List.map_cons, mono k v hlk]
        simp
    | none =>
      have hstep : ctfStep (a, t) k =
          (a.add_symbol k, t ++ [a.key_table.length % 2 ^ 16]) := by
        simp [ctfStep, hlk]
      obtain ⟨mono, alls, htr, ext, hext⟩ :=
        ih (a.add_symbol k) (t ++ [a.key_table.length % 2 ^ 16])
      have hka : lookupA (a.add_symbol k).string_to_symbol k =
          some (a.key_table.length % 2 ^ 16) := add_symbol_lookup_self a k
      rw [List.foldl_cons, hstep]
      refine ⟨?_, ?_, ?_, ?_⟩
      · intro k' v hv
        exact mono k' v (add_symbol_lookup_mono a k hlk k' v hv)
      · intro k' hk'
        rcases List.mem_cons.mp hk' with h | h
        · rw [h]
          exact Option.isSome_iff_exists.mpr ⟨_, mono _ _ hka⟩
        · exact alls k' h
      · rw [htr, List.map_cons, mono _ _ hka]
        simp
      · refine ⟨[k] ++ ext, ?_⟩
        rw [hext]
        simp [TransducerAlphabet.add_symbol]

theorem ctf_fold_found (ks : List (List Char)) (a : TransducerAlphabet)
    (t : List Nat)
    (h : ∀ k ∈ ks, (lookupA a.string_to_symbol k).isSome) :
    ks.foldl ctfStep (a, t) =
      (a, t ++ ks.map (fun k => (lookupA a.string_to_symbol k).getD 0)) := by
  induction ks generalizing t with
  | nil => simp
  | cons k ks ih =>
    obtain ⟨v, hv⟩ :=
      Option.isSome_iff_exists.mp (h k (List.mem_cons_self k ks))
    have hstep : ctfStep (a, t) k = (a, t ++ [v]) := by simp [ctfStep, hv]
    rw [List.foldl_cons, hstep,
      ih (t ++ [v]) (fun k' h' => h k' (List.mem_cons_of_mem k h'))]
    simp [hv]

theorem ctf_fold_bound (ks : List (List Char)) (a : TransducerAlphabet)
    (t : List Nat) (hwf : wfAlphabet a)
    (ht : ∀ v ∈ t, v < a.key_table.length) :
    wfAlphabet (ks.foldl ctfStep (a, t)).1
    ∧ ∀ v ∈ (ks.foldl ctfStep (a, t)).2,
        v < (ks.foldl ctfStep (a, t)).1.key_table.length := by
  induction ks generalizing a t with
  | nil => exact ⟨hwf, ht⟩
  | cons k ks ih =>
    cases hlk : lookupA a.string_to_symbol k with
    | some v =>
      have hstep : ctfStep (a, t) k = (a, t ++ [v]) := by simp [ctfStep, hlk]
      rw [List.foldl_cons, hstep]
      refine ih a (t ++ [v]) hwf ?_
      intro x hx
      rcases List.mem_append.mp hx with h | h
      · exact ht x h
      · rw [List.mem_singleton.mp h]
        exact hwf (k, v) (mem_of_lookupA hlk)
    | none =>
      have hstep : ctfStep (a, t) k =
          (a.add_symbol k, t ++ [a.key_table.length % 2 ^ 16]) := by
        simp [ctfStep, hlk]
      have hlen : (a.add_symbol k).key_table.length = a.key_table.length + 1 := by
        simp [TransducerAlphabet.add_symbol]
      rw [List.foldl_cons, hstep]
      refine ih (a.add_symbol k) _ ?_ ?_
      · intro p hp
        rw [hlen]
        have : (a.add_symbol k).string_to_symbol =
            insertA a.string_to_symbol k (a.key_table.length % 2 ^ 16) := rfl
        rw [this, insertA, if_neg (by simp [hlk])] at hp
        rcases List.mem_append.mp hp with h | h
        · exact Nat.lt_succ_of_lt (hwf p h)
        · rw [List.mem_singleton.mp h]
          exact Nat.lt_succ_of_le (Nat.mod_le _ _)
      · intro x hx
        rw [hlen]
        rcases List.mem_append.mp hx with h | h
        · exact Nat.lt_succ_of_lt (ht x h)
        · rw [List.mem_singleton.mp h]
          exact Nat.lt_succ_of_le (Nat.mod_le _ _)

theorem recase_nil (cf : CaseFuns) (r : String) : recase cf r [] = [] := by
  unfold recase
  by_cases h1 : cf.is_all_caps r <;> by_cases h2 : cf.is_first_caps r <;>
    simp [h1, h2]

theorem merging_fold_flat (cf : CaseFuns)
    (search : String → SpellerConfig → List Suggestion)
    (r : String) (config : SpellerConfig) (ws : List String)
    (b : List (String × ℚ)) :
    ws.foldl
      (fun best word =>
        let suggestions := search word config
        if suggestions.isEmpty then best
        else (recase cf r suggestions).foldl updateBest best) b
      = (mergedPool cf search r ws config).foldl updateBest b := by
  induction ws generalizing b with
  | nil => simp [mergedPool]
  | cons w ws ih =>
    simp only [mergedPool, List.foldl_cons, List.map_cons, List.flatten_cons,
      List.foldl_append]
    by_cases he : (search w config).isEmpty
    · rw [if_pos he, List.isEmpty_iff.mp he, recase_nil]
      exact ih b
    · rw [if_neg he]
      exact ih _

theorem lookupA_updateBest (best : List (String × ℚ)) (x : Suggestion)
    (k : String) :
    lookupA (updateBest best x) k =
      if k = x.value then
        some (match lookupA best x.value with
              | some w => if x.weight < w then x.weight else w
              | none => x.weight)
      else lookupA best k := by
  unfold updateBest
  cases h : lookupA best x.value with
  | some w =>
    rw [lookupA_insertA]
  | none =>
    rw [lookupA_append]
    by_cases hk : k = x.value
    · subst hk
      simp [h, lookupA]
    · have hxk : ¬x.value = k := fun hh => hk hh.symm
      cases hq : lookupA best k with
      | none => simp [hq, h, lookupA, hxk, hk]
      | some v => simp [hq, h, hk]

theorem keys_updateBest (best : List (String × ℚ)) (x : Suggestion)
    (hnd : (best.map Prod.fst).Nodup) :
    ((updateBest best x).map Prod.fst).Nodup := by
  unfold updateBest
  cases h : lookupA best x.value with
  | some w =>
    show ((insertA best x.value
      (if x.weight < w then x.weight else w)).map Prod.fst).Nodup
    rw [keys_insertA, if_pos (by simp [h])]
    exact hnd
  | none =>
    show ((best ++ [(x.value, x.weight)]).map Prod.fst).Nodup
    rw [List.map_append]
    simp only [List.map_cons, List.map_nil]
    rw [List.nodup_append]
    refine ⟨hnd, List.nodup_singleton _, ?_⟩
    intro a ha hb
    rw [List.mem_singleton.mp hb] at ha
    exact (lookupA_eq_none_iff best x.value).mp h ha

theorem fold_min (l : List Suggestion) (best : List (String × ℚ))
    (hnd : (best.map Prod.fst).Nodup) :
    ((l.foldl updateBest best).map Prod.fst).Nodup
    ∧ ∀ p ∈ l.foldl updateBest best,
        (lookupA best p.1 = some p.2 ∨ ∃ t ∈ l, t.value = p.1 ∧ t.weight = p.2)
        ∧ (∀ w, lookupA best p.1 = some w → p.2 ≤ w)
        ∧ (∀ t ∈ l, t.value = p.1 → p.2 ≤ t.weight) := by
  induction l generalizing best with
  | nil =>
    refine ⟨hnd, fun p hp => ⟨Or.inl (lookupA_mem_of_nodup hnd hp), ?_, by simp⟩⟩
    intro w hw
    rw [lookupA_mem_of_nodup hnd hp] at hw
    exact le_of_eq (Option.some_inj.mp hw)
  | cons x l ih =>
    rw [List.foldl_cons]
    obtain ⟨hnd2, H⟩ := ih (updateBest best x) (keys_updateBest best x hnd)
    refine ⟨hnd2, fun p hp => ?_⟩
    obtain ⟨hsrc, hbnd, hrest⟩ := H p hp
    refine ⟨?_, ?_, ?_⟩
    · rcases hsrc with hA | hA
      · rw [lookupA_updateBest] at hA
        by_cases hx : p.1 = x.value
        · rw [if_pos hx] at hA
          cases hb : lookupA best x.value with
          | some w =>
            rw [hb] at hA
            by_cases hlt : x.weight < w
            · refine Or.inr ⟨x, List.mem_cons_self x l, hx.symm, ?_⟩
              have := Option.some_inj.mp hA
              simp [hlt] at this
              exact this
            · refine Or.inl ?_
              have := Option.some_inj.mp hA
              simp [hlt] at this
              rw [hx, hb, this]
          | none =>
            rw [hb] at hA
            exact Or.inr ⟨x, List.mem_cons_self x l, hx.symm,
              Option.some_inj.mp hA⟩
        · rw [if_neg hx] at hA
          exact Or.inl hA
      · obtain ⟨t, ht, hv, hw⟩ := hA
        exact Or.inr ⟨t, List.mem_cons_of_mem x ht, hv, hw⟩
    · intro w hw
      by_cases hx : p.1 = x.value
      · have hb : lookupA best x.value = some w := hx ▸ hw
        have hup : lookupA (updateBest best x) p.1 =
            some (if x.weight < w then x.weight else w) := by
          rw [lookupA_updateBest, if_pos hx, hb]
        have h1 := hbnd _ hup
        by_cases hlt : x.weight < w
        · rw [if_pos hlt] at h1
          exact le_trans h1 (le_of_lt hlt)
        · rw [if_neg hlt] at h1
          exact h1
      · have hup : lookupA (updateBest best x) p.1 = lookupA best p.1 := by
          rw [lookupA_updateBest, if_neg hx]
        exact hbnd w (hup.trans hw)
    · intro t ht hv
      rcases List.mem_cons.mp ht with h | h
      · subst h
        have hx : p.1 = t.value := hv.symm
        cases hb : lookupA best t.value with
        | some w =>
          have hup : lookupA (updateBest best t) p.1 =
              some (if t.weight < w then t.weight else w) := by
            rw [lookupA_updateBest, if_pos hx, hb]
          have h1 := hbnd _ hup
          by_cases hlt : t.weight < w
          · rw [if_pos hlt] at h1
            exact h1
          · rw [if_neg hlt] at h1
            exact le_trans h1 (le_of_not_lt hlt)
        | none =>
          have hup : lookupA (updateBest best t) p.1 = some t.weight := by
            rw [lookupA_updateBest, if_pos hx, hb]
          exact hbnd _ hup
      · exact hrest t h hv

theorem lt_length_of_getElem?_some {α : Type} {l : List α} {j : Nat} {x : α}
    (h : l[j]? = some x) : j < l.length := by
  by_contra hn
  rw [List.getElem?_eq_none (Nat.le_of_not_lt hn)] at h
  cases h

theorem classifyKey_plain (st : AlphabetParseState) (i : Nat) (k : List Char)
    (hreg : ¬registersValue k) (st2 : AlphabetParseState)
    (h : classifyKey st i k = some st2) :
    st2.value_bucket = st.value_bucket ∧ st2.val_n = st.val_n ∧
      st2.key_table.length = st.key_table.length + 1 := by
  unfold classifyKey at h
  by_cases hc : keyByteLen k > 1 ∧ k.head? = some '@' ∧ k.getLast? = some '@'
  · rw [if_pos hc] at h
    cases h2 : k[2]? with
    | none => simp only [h2] at h; cases h
    | some c =>
      simp only [h2] at h
      by_cases hdot : c = '.'
      · exact absurd (Or.inl ⟨hc.1, hc.2.1, hc.2.2, by rw [h2, hdot]⟩) hreg
      · rw [if_neg hdot] at h
        by_cases heps : k = epsilonKey
        · exact absurd (Or.inr heps) hreg
        · rw [if_neg heps] at h
          by_cases hid : k = identityKey
          · rw [if_pos hid] at h
            cases Option.some_inj.mp h
            simp
          · rw [if_neg hid] at h
            by_cases hunk : k = unknownKey
            · rw [if_pos hunk] at h
              cases Option.some_inj.mp h
              simp
            · rw [if_neg hunk] at h
              cases Option.some_inj.mp h
              simp
  · rw [if_neg hc] at h
    cases Option.some_inj.mp h
    simp

theorem classifyKey_eps (st : AlphabetParseState) (i : Nat) :
    classifyKey st i epsilonKey = some
      { st with
        value_bucket := insertA st.value_bucket [] st.val_n
        key_table := st.key_table ++ [[]]
        val_n := st.val_n + 1 } := by
  rfl

theorem classifyKey_preserve_value (st : AlphabetParseState) (i : Nat)
    (k : List Char) (hne : k ≠ epsilonKey) (st2 : AlphabetParseState)
    (h : classifyKey st i k = some st2) (w : Int)
    (hw : lookupA st.value_bucket [] = some w) :
    lookupA st2.value_bucket [] = some w := by
  unfold classifyKey at h
  by_cases hc : keyByteLen k > 1 ∧ k.head? = some '@' ∧ k.getLast? = some '@'
  · rw [if_pos hc] at h
    cases h2 : k[2]? with
    | none => simp only [h2] at h; cases h
    | some c =>
      simp only [h2] at h
      by_cases hdot : c = '.'
      · rw [if_pos hdot] at h
        unfold handleSpecialSymbol at h
        cases hop : flagDiacriticOperatorFromStr
            (((List.splitOn '.' k).headD []).drop 1) with
        | none => simp only [hop] at h; cases h
        | some fdo =>
          simp only [hop] at h
          cases Option.some_inj.mp h
          show lookupA (insertFresh st.value_bucket _ st.val_n) [] = some w
          unfold insertFresh
          by_cases hv : (lookupA st.value_bucket
              ((((List.splitOn '.' k)[2]?).getD []).filter (fun x => x ≠ '@'))).isSome
          · rw [if_pos hv]; exact hw
          · rw [if_neg hv, lookupA_append, hw]
      · rw [if_neg hdot, if_neg hne] at h
        by_cases hid : k = identityKey
        · rw [if_pos hid] at h
          cases Option.some_inj.mp h
          exact hw
        · rw [if_neg hid] at h
          by_cases hunk : k = unknownKey
          · rw [if_pos hunk] at h
            cases Option.some_inj.mp h
            exact hw
          · rw [if_neg hunk] at h
            cases Option.some_inj.mp h
            exact hw
  · rw [if_neg hc] at h
    cases Option.some_inj.mp h
    exact hw

theorem classifyKey_appends (st : AlphabetParseState) (i : Nat)
    (k : List Char) (st2 : AlphabetParseState)
    (h : classifyKey st i k = some st2) :
    ∃ y, st2.key_table = st.key_table ++ [y] := by
  unfold classifyKey at h
  by_cases hc : keyByteLen k > 1 ∧ k.head? = some '@' ∧ k.getLast? = some '@'
  · rw [if_pos hc] at h
    cases h2 : k[2]? with
    | none => simp only [h2] at h; cases h
    | some c =>
      simp only [h2] at h
      by_cases hdot : c = '.'
      · rw [if_pos hdot] at h
        unfold handleSpecialSymbol at h
        cases hop : flagDiacriticOperatorFromStr
            (((List.splitOn '.' k).headD []).drop 1) with
        | none => simp only [hop] at h; cases h
        | some fdo =>
          simp only [hop] at h
          cases Option.some_inj.mp h
          exact ⟨k, rfl⟩
      · rw [if_neg hdot] at h
        by_cases heps : k = epsilonKey
        · rw [if_pos heps] at h
          cases Option.some_inj.mp h
          exact ⟨[], rfl⟩
        · rw [if_neg heps] at h
          by_cases hid : k = identityKey
          · rw [if_pos hid] at h
            cases Option.some_inj.mp h
            exact ⟨k, rfl⟩
          · rw [if_neg hid] at h
            by_cases hunk : k = unknownKey
            · rw [if_pos hunk] at h
              cases Option.some_inj.mp h
              exact ⟨k, rfl⟩
            · rw [if_neg hunk] at h
              cases Option.some_inj.mp h
              exact ⟨[], rfl⟩
  · rw [if_neg hc] at h
    cases Option.some_inj.mp h
    exact ⟨k, rfl⟩

theorem classifyAll_preserve (ks : List (List Char)) :
    ∀ (st : AlphabetParseState) (a : Nat) (st2 : AlphabetParseState)
      (j : Nat) (x : List Char) (w : Int),
    classifyAll st a ks = some st2 →
    (∀ (q : Nat) (kk : List Char), ks[q]? = some kk → kk ≠ epsilonKey) →
    lookupA st.value_bucket [] = some w →
    st.key_table[j]? = some x →
    lookupA st2.value_bucket [] = some w ∧ st2.key_table[j]? = some x := by
  induction ks with
  | nil =>
    intro st a st2 j x w hall hno hw hj
    cases Option.some_inj.mp hall
    exact ⟨hw, hj⟩
  | cons k ks ih =>
    intro st a st2 j x w hall hno hw hj
    cases hck : classifyKey st a k with
    | none => rw [classifyAll, hck] at hall; cases hall
    | some st1 =>
      rw [classifyAll, hck] at hall
      have hne : k ≠ epsilonKey := hno 0 k (by simp)
      have hw1 := classifyKey_preserve_value st a k hne st1 hck w hw
      obtain ⟨y, hy⟩ := classifyKey_appends st a k st1 hck
      have hj1 : st1.key_table[j]? = some x := by
        rw [hy, List.getElem?_append, if_pos (lt_length_of_getElem?_some hj)]
        exact hj
      exact ih st1 (a + 1) st2 j x w hall
        (fun q kk hq => hno (q + 1) kk (by simpa using hq)) hw1 hj1

theorem classifyAll_eps (ks : List (List Char)) :
    ∀ (st : AlphabetParseState) (a : Nat) (p : Nat) (st2 : AlphabetParseState),
    classifyAll st a ks = some st2 →
    ks[p]? = some epsilonKey →
    (∀ (j : Nat) (kk : List Char), j < p → ks[j]? = some kk → ¬registersValue kk) →
    (∀ (j : Nat) (kk : List Char), p < j → ks[j]? = some kk → kk ≠ epsilonKey) →
    st.value_bucket = [] → st.val_n = 0 →
    st2.key_table[st.key_table.length + p]? = some [] ∧
      lookupA st2.value_bucket [] = some 0 := by
  induction ks with
  | nil =>
    intro st a p st2 _ hp
    rw [List.getElem?_eq_none (by simp : ([] : List (List Char)).length ≤ p)] at hp
    cases hp
  | cons k ks ih =>
    intro st a p st2 hall hp hpre hpost hvb hvn
    cases hck : classifyKey st a k with
    | none => rw [classifyAll, hck] at hall; cases hall
    | some st1 =>
      rw [classifyAll, hck] at hall
      cases p with
      | zero =>
        have hk : k = epsilonKey := by simpa using hp
        subst hk
        rw [classifyKey_eps st a] at hck
        cases Option.some_inj.mp hck
        have hvb1 : lookupA
            (insertA st.value_bucket ([] : List Char) st.val_n) [] = some 0 := by
          rw [lookupA_insertA, if_pos rfl, hvn]
        have hkt1 : (st.key_table ++ [[]])[st.key_table.length]? =
            some ([] : List Char) := by
          rw [List.getElem?_append_right (le_refl _)]
          simp
        have hpair := classifyAll_preserve ks _ (a + 1) st2
          (st.key_table.length) [] 0 hall
          (fun q kk hq => hpost (q + 1) kk (Nat.succ_pos q) (by simpa using hq))
          hvb1 hkt1
        simpa using And.intro hpair.2 hpair.1
      | succ p =>
        have hreg : ¬registersValue k :=
          hpre 0 k (Nat.succ_pos p) (by simp)
        obtain ⟨hvb1, hvn1, hlen1⟩ := classifyKey_plain st a k hreg st1 hck
        have hres := ih st1 (a + 1) p st2 hall (by simpa using hp)
          (fun j kk hj hk => hpre (j + 1) kk (by omega) (by simpa using hk))
          (fun j kk hj hk => hpost (j + 1) kk (by omega) (by simpa using hk))
          (hvb1.trans hvb) (hvn1.trans hvn)
        have hidx : st1.key_table.length + p = st.key_table.length + (p + 1) := by
          omega
        rw [hidx] at hres
        exact hres

/-- C10: for both the HFST and the THFST transducer, `has_transitions`
with no symbol returns `false` at every state, whatever the tables hold
(for THFST, without even touching the chunk tables). -/
theorem C10_has_transitions_none (t : HfstTransducer) (u : ThfstTransducer)
    (i : Nat) :
    t.has_transitions i none = false ∧ u.has_transitions i none = some false :=
  ⟨rfl, rfl⟩

/-- C5: the alphabet parser panics (models as `none`) on the well-formed
null-terminated key `"@@"` — `key.chars().nth(2).unwrap()` on a two-byte
key — and on `"@Z.A.B@"`, whose operator `Z` is not one of P, N, R, D, C,
U — `FlagDiacriticOperator::from_str(..).unwrap()`. The claim that such
keys are handled without aborting therefore describes intended, not
actual, behavior. -/
theorem C5_parser_panics :
    parseInner (asciiOf "@@" ++ [0, 1]) 1 = none
    ∧ parseInner (asciiOf "@Z.A.B@" ++ [0, 1]) 1 = none := by
  decide

/-- C1 (amended): `is_final`, `final_weight`, `has_transitions` and
`has_epsilons_or_flags` dispatch on the `TARGET_TABLE` sentinel as the
claim states; `take_epsilons`, `take_epsilons_and_flags` and
`take_non_epsilons` do not dispatch — they read the transition table at
the state index itself, so at any state at or above `TARGET_TABLE` (with
a transition table of at most `TARGET_TABLE` records) they return
nothing. -/
theorem C1_facade_dispatch (t : HfstTransducer) (i sym : Nat) :
    (TARGET_TABLE ≤ i →
      t.is_final i = transIsFinal t.transition_table (i - TARGET_TABLE)
      ∧ t.final_weight i = transWeight t.transition_table (i - TARGET_TABLE)
      ∧ t.has_transitions i (some sym) =
          (match transInputSymbol t.transition_table (i - TARGET_TABLE) with
           | some res => sym == res
           | none => false)
      ∧ t.has_epsilons_or_flags i =
          (match transInputSymbol t.transition_table (i - TARGET_TABLE) with
           | some s2 => s2 == 0 || t.alphabet.is_flag s2
           | none => false))
    ∧ (i < TARGET_TABLE →
      t.is_final i = idxIsFinal t.index_table i
      ∧ t.final_weight i = idxFinalWeight t.index_table i
      ∧ t.has_transitions i (some sym) =
          (match idxInputSymbol t.index_table (i + sym) with
           | some res => sym == res
           | none => false)
      ∧ t.has_epsilons_or_flags i = (idxInputSymbol t.index_table i == some 0))
    ∧ t.take_epsilons i =
        (if transInputSymbol t.transition_table i = some 0
         then some (transSymbolTransition t.transition_table i) else none)
    ∧ (TARGET_TABLE ≤ i → t.transition_table.length ≤ TARGET_TABLE →
        t.take_epsilons i = none
        ∧ t.take_epsilons_and_flags i = none
        ∧ t.take_non_epsilons i sym = none) := by
  refine ⟨?_, ?_, rfl, ?_⟩
  · intro h
    refine ⟨?_, ?_, ?_, ?_⟩ <;>
      simp [HfstTransducer.is_final, HfstTransducer.final_weight,
        HfstTransducer.has_transitions, HfstTransducer.has_epsilons_or_flags, h]
  · intro h
    have hn : ¬TARGET_TABLE ≤ i := Nat.not_le.mpr h
    refine ⟨?_, ?_, ?_, ?_⟩ <;>
      simp [HfstTransducer.is_final, HfstTransducer.final_weight,
        HfstTransducer.has_transitions, HfstTransducer.has_epsilons_or_flags, hn]
  · intro h hlen
    have hnone : transInputSymbol t.transition_table i = none := by
      rw [transInputSymbol, recAt_eq,
        List.getElem?_eq_none (Nat.le_trans hlen h)]
      rfl
    refine ⟨?_, ?_, ?_⟩ <;>
      simp [HfstTransducer.take_epsilons, HfstTransducer.take_epsilons_and_flags,
        HfstTransducer.take_non_epsilons, hnone]

/-- Witness for C1 at the concrete transducer `hfstW`, states
`TARGET_TABLE` and `0`. -/
theorem C1_facade_dispatch_witness :
    HfstTransducer.is_final hfstW TARGET_TABLE =
      transIsFinal hfstW.transition_table (TARGET_TABLE - TARGET_TABLE)
    ∧ HfstTransducer.take_epsilons hfstW TARGET_TABLE = none
    ∧ HfstTransducer.is_final hfstW 0 = idxIsFinal hfstW.index_table 0 :=
  ⟨((C1_facade_dispatch hfstW TARGET_TABLE 0).1 (le_refl _)).1,
    (((C1_facade_dispatch hfstW TARGET_TABLE 0).2.2.2 (le_refl _)
      (by decide)).1),
    ((C1_facade_dispatch hfstW 0 0).2.1 (by decide)).1⟩

/-- Counterexample for C1 as stated: at state `TARGET_TABLE` of the
concrete transducer `hfstW`, `take_epsilons` does not equal the claimed
sentinel-dispatched lookup of the transition table at offset
`TARGET_TABLE - TARGET_TABLE = 0` (which holds an epsilon arc): the code
reads row `TARGET_TABLE` itself and finds nothing. -/
theorem C1_counterexample :
    ¬(HfstTransducer.take_epsilons hfstW TARGET_TABLE =
      (if transInputSymbol hfstW.transition_table
            (TARGET_TABLE - TARGET_TABLE) = some 0
       then some (transSymbolTransition hfstW.transition_table
            (TARGET_TABLE - TARGET_TABLE))
       else none)) := by
  decide

/-- C2: `next(i, sym)` returns `i - TARGET_TABLE + 1` on the transition
side; on the index side it follows `index_table.target(i + 1 + sym)`
(rebased by the wrapping `- TARGET_TABLE`), and is `None` exactly when
that target is absent. -/
theorem C2_next_follows_index (t : HfstTransducer) (i sym : Nat) :
    (TARGET_TABLE ≤ i → t.next i sym = some (i - TARGET_TABLE + 1))
    ∧ (i < TARGET_TABLE →
        t.next i sym = (idxTarget t.index_table (i + 1 + sym)).map
          (fun v => u32sub v TARGET_TABLE)
        ∧ (t.next i sym = none ↔
            idxTarget t.index_table (i + 1 + sym) = none)) := by
  constructor
  · intro h
    simp [HfstTransducer.next, h]
  · intro h
    have hn : ¬TARGET_TABLE ≤ i := Nat.not_le.mpr h
    constructor
    · unfold HfstTransducer.next
      rw [if_neg hn]
      cases hv : idxTarget t.index_table (i + 1 + sym) <;> simp [hv]
    · unfold HfstTransducer.next
      rw [if_neg hn]
      cases hv : idxTarget t.index_table (i + 1 + sym) <;> simp [hv]

/-- Witness for C2 at `hfstW`, states `TARGET_TABLE` and `0`. -/
theorem C2_next_follows_index_witness :
    HfstTransducer.next hfstW TARGET_TABLE 0 =
      some (TARGET_TABLE - TARGET_TABLE + 1)
    ∧ HfstTransducer.next hfstW 0 0 =
        (idxTarget hfstW.index_table 1).map (fun v => u32sub v TARGET_TABLE)
    ∧ (HfstTransducer.next hfstW 0 0 = none ↔
        idxTarget hfstW.index_table 1 = none) :=
  ⟨(C2_next_follows_index hfstW TARGET_TABLE 0).1 (le_refl _),
    ((C2_next_follows_index hfstW 0 0).2 (by decide)).1,
    ((C2_next_follows_index hfstW 0 0).2 (by decide)).2⟩

/-- C9 (amended): if the scanned key at position `i` is
`@_EPSILON_SYMBOL_@`, no key before `i` registers a value id (no
flag-diacritic-shaped key and no other epsilon key), and no key after `i`
is the epsilon key, then a successful parse pushes the empty string into
the key table at index `i` and registers the empty string in the value
bucket with value id 0. In general the registered id is the value counter
at the time the epsilon key is met, so a preceding flag diacritic makes
it nonzero. -/
theorem C9_epsilon_zero (buf : List Nat) (symbols : Nat)
    (raw : List (List Nat)) (rest : List Nat) (i : Nat)
    (st : AlphabetParseState)
    (hscan : scanKeys symbols buf = some (raw, rest))
    (heps : (raw.map decodeLossyAscii)[i]? = some epsilonKey)
    (hpre : ∀ (j : Nat) (k : List Char), j < i →
      (raw.map decodeLossyAscii)[j]? = some k → ¬registersValue k)
    (hpost : ∀ (j : Nat) (k : List Char), i < j →
      (raw.map decodeLossyAscii)[j]? = some k → k ≠ epsilonKey)
    (hparse : parseInner buf symbols = some st) :
    st.key_table[i]? = some [] ∧ lookupA st.value_bucket [] = some 0 := by
  unfold parseInner at hparse
  simp only [hscan] at hparse
  cases hca : classifyAll AlphabetParseState.init 0 (raw.map decodeLossyAscii) with
  | none => simp only [hca] at hparse; cases hparse
  | some st0 =>
    simp only [hca] at hparse
    cases hsk : skipNuls rest with
    | none => simp only [hsk] at hparse; cases hparse
    | some rest2 =>
      simp only [hsk] at hparse
      cases Option.some_inj.mp hparse
      have hres := classifyAll_eps (raw.map decodeLossyAscii)
        AlphabetParseState.init 0 i st0 hca heps hpre hpost rfl rfl
      simpa [AlphabetParseState.init] using hres

/-- Counterexample for C9 as stated: in the buffer `bufC9` the key table
is `@U.X@` (a flag diacritic registering its empty VALUE as id 0)
followed by `@_EPSILON_SYMBOL_@` at position 1; parsing succeeds, pushes
the empty string at index 1, but registers the empty string with value
id 1, not 0. -/
theorem C9_counterexample :
    (scanKeys 2 bufC9).map (fun p => p.1.map decodeLossyAscii) =
      some ["@U.X@".toList, epsilonKey]
    ∧ (parseInner bufC9 2).map
        (fun st => (st.key_table[1]?, lookupA st.value_bucket [])) =
      some (some [], some 1)
    ∧ ¬((parseInner bufC9 2).map (fun st => lookupA st.value_bucket []) =
        some (some 0)) := by
  refine ⟨by decide, by decide, by decide⟩

/-- Witness for C9: the buffer holding just `@_EPSILON_SYMBOL_@` parses
to `epsStateW`, whose key table holds the empty string at index 0 and
whose value bucket maps the empty string to 0. -/
theorem C9_epsilon_zero_witness :
    epsStateW.key_table[0]? = some [] ∧
      lookupA epsStateW.value_bucket [] = some 0 :=
  C9_epsilon_zero (asciiOf "@_EPSILON_SYMBOL_@" ++ [0, 1]) 1
    [asciiOf "@_EPSILON_SYMBOL_@"] [1] 0 epsStateW
    (by decide) (by decide)
    (fun j k hj _ => absurd hj (Nat.not_lt_zero j))
    (fun j k hj hk => by
      rw [List.getElem?_eq_none (by simpa using hj)] at hk
      cases hk)
    (by decide)

/-- C4: `create_translator_from` is idempotent — running it a second time
against the once-extended lexicon yields the identical translator array —
and the first run can only grow the lexicon key table. -/
theorem C4_translator_idempotent (lex : TransducerAlphabet)
    (fromKeys : List (List Char)) :
    ((lex.create_translator_from fromKeys).1.create_translator_from
        fromKeys).2 = (lex.create_translator_from fromKeys).2
    ∧ lex.key_table.length ≤
        (lex.create_translator_from fromKeys).1.key_table.length := by
  obtain ⟨mono, alls, htr, ext, hext⟩ :=
    ctf_fold_spec (fromKeys.drop 1) lex [0]
  constructor
  · unfold TransducerAlphabet.create_translator_from
    rw [ctf_fold_found _ _ _ alls]
    exact htr.symm
  · unfold TransducerAlphabet.create_translator_from
    rw [hext]
    simp

/-- C3: the translator starts with 0, has one entry per mutator key-table
symbol, each entry at `s ≥ 1` is the reverse-map symbol of the (so far
extended) lexicon when present and otherwise the freshly appended key
index (with the mutator string appended to the lexicon key table), and
every entry indexes into the extended lexicon key table. -/
theorem C3_translator_valid (lex : TransducerAlphabet)
    (fromKeys : List (List Char)) (hne : 0 < fromKeys.length)
    (hwf : wfAlphabet lex) (hkt : 0 < lex.key_table.length) :
    (lex.create_translator_from fromKeys).2[0]? = some 0
    ∧ (lex.create_translator_from fromKeys).2.length = fromKeys.length
    ∧ (∀ (s : Nat) (k : List Char), 1 ≤ s → fromKeys[s]? = some k →
        (lex.create_translator_from fromKeys).2[s]? = some
          (match lookupA (translatorPrefixState lex fromKeys s).string_to_symbol k with
           | some v => v
           | none =>
             (translatorPrefixState lex fromKeys s).key_table.length % 2 ^ 16)
        ∧ (lookupA (translatorPrefixState lex fromKeys s).string_to_symbol k = none →
            (translatorPrefixState lex fromKeys (s + 1)).key_table =
              (translatorPrefixState lex fromKeys s).key_table ++ [k]))
    ∧ ∀ v ∈ (lex.create_translator_from fromKeys).2,
        v < (lex.create_translator_from fromKeys).1.key_table.length := by
  obtain ⟨mono, alls, htr, ext, hext⟩ :=
    ctf_fold_spec (fromKeys.drop 1) lex [0]
  refine ⟨?_, ?_, ?_, ?_⟩
  · unfold TransducerAlphabet.create_translator_from
    rw [htr]
    rw [List.getElem?_append, if_pos (by simp)]
    rfl
  · unfold TransducerAlphabet.create_translator_from
    rw [htr]
    simp only [List.length_append, List.length_map, List.length_drop,
      List.length_cons, List.length_nil]
    omega
  · intro s k hs hk
    have hd : (fromKeys.drop 1)[s - 1]? = some k := by
      rw [List.getElem?_drop]
      have h1 : 1 + (s - 1) = s := by omega
      rw [h1]
      exact hk
    have hlt : s - 1 < (fromKeys.drop 1).length := lt_length_of_getElem?_some hd
    have hget : (fromKeys.drop 1)[s - 1] = k := by
      have := List.getElem?_eq_getElem hlt
      rw [this] at hd
      exact Option.some_inj.mp hd
    have hdropcons : (fromKeys.drop 1).drop (s - 1) =
        k :: (fromKeys.drop 1).drop s := by
      rw [List.drop_eq_getElem_cons hlt, hget]
      have h2 : s - 1 + 1 = s := by omega
      rw [h2]
    have hfold : (fromKeys.drop 1).foldl ctfStep (lex, [0]) =
        ((fromKeys.drop 1).drop s).foldl ctfStep
          (ctfStep (((fromKeys.drop 1).take (s - 1)).foldl ctfStep (lex, [0])) k) := by
      conv_lhs => rw [← List.take_append_drop (s - 1) (fromKeys.drop 1)]
      rw [List.foldl_append, hdropcons, List.foldl_cons]
    have hmidlen :
        ((((fromKeys.drop 1).take (s - 1)).foldl ctfStep (lex, [0])).2).length = s := by
      obtain ⟨_, _, htr2, _⟩ :=
        ctf_fold_spec ((fromKeys.drop 1).take (s - 1)) lex [0]
      rw [htr2]
      simp only [List.length_append, List.length_map, List.length_take,
        List.length_cons, List.length_nil]
      omega
    set mid := ((fromKeys.drop 1).take (s - 1)).foldl ctfStep (lex, [0]) with hmid
    cases hmlk : lookupA mid.1.string_to_symbol k with
    | some v =>
      have hstep : ctfStep mid k = (mid.1, mid.2 ++ [v]) := by
        simp [ctfStep, hmlk]
      obtain ⟨mono2, _, _, _⟩ :=
        ctf_fold_spec ((fromKeys.drop 1).drop s) mid.1 (mid.2 ++ [v])
      have hfk : lookupA
          (((fromKeys.drop 1).foldl ctfStep (lex, [0])).1).string_to_symbol k =
          some v := by
        rw [hfold, hstep]
        exact mono2 k v hmlk
      constructor
      · unfold TransducerAlphabet.create_translator_from
        rw [htr]
        rw [List.getElem?_append_right
          (show (([0] : List Nat)).length ≤ s by
            have h0 : (([0] : List Nat)).length = 1 := rfl
            omega)]
        simp only [List.length_cons, List.length_nil]
        rw [List.getElem?_map, hd]
        simp only [Option.map_some']
        rw [hfk]
        have hmlk2 : lookupA
            (translatorPrefixState lex fromKeys s).string_to_symbol k =
            some v := hmlk
        rw [hmlk2]
        simp
      · intro hcontra
        have : lookupA (translatorPrefixState lex fromKeys s).string_to_symbol k =
            some v := hmlk
        rw [this] at hcontra
        cases hcontra
    | none =>
      have hstep : ctfStep mid k =
          (mid.1.add_symbol k, mid.2 ++ [mid.1.key_table.length % 2 ^ 16]) := by
        simp [ctfStep, hmlk]
      obtain ⟨mono2, _, _, _⟩ :=
        ctf_fold_spec ((fromKeys.drop 1).drop s) (mid.1.add_symbol k)
          (mid.2 ++ [mid.1.key_table.length % 2 ^ 16])
      have hfk : lookupA
          (((fromKeys.drop 1).foldl ctfStep (lex, [0])).1).string_to_symbol k =
          some (mid.1.key_table.length % 2 ^ 16) := by
        rw [hfold, hstep]
        exact mono2 k _ (add_symbol_lookup_self mid.1 k)
      constructor
      · unfold TransducerAlphabet.create_translator_from
        rw [htr]
        rw [List.getElem?_append_right
          (show (([0] : List Nat)).length ≤ s by
            have h0 : (([0] : List Nat)).length = 1 := rfl
            omega)]
        simp only [List.length_cons, List.length_nil]
        rw [List.getElem?_map, hd]
        simp only [Option.map_some']
        rw [hfk]
        have hmlk2 : lookupA
            (translatorPrefixState lex fromKeys s).string_to_symbol k =
            none := hmlk
        rw [hmlk2]
        simp only [translatorPrefixState]
        rw [← hmid]
        simp
      · intro _
        have htake : (fromKeys.drop 1).take (s + 1 - 1) =
            (fromKeys.drop 1).take (s - 1) ++ [k] := by
          have h3 : s + 1 - 1 = (s - 1) + 1 := by omega
          rw [h3, List.take_succ, hd]
          rfl
        unfold translatorPrefixState
        rw [htake, List.foldl_append, List.foldl_cons, List.foldl_nil, ← hmid,
          hstep]
        rfl
  · have hzero : ∀ v ∈ ([0] : List Nat), v < lex.key_table.length := by
      intro v hv
      rw [List.mem_singleton.mp hv]
      exact hkt
    exact (ctf_fold_bound (fromKeys.drop 1) lex [0] hwf hzero).2

/-- Witness for C3 at the concrete lexicon `lexW` (keys epsilon, `a`) and
mutator key table `mutKeysW` (epsilon, `b`, `a`). -/
theorem C3_translator_valid_witness :
    (lexW.create_translator_from mutKeysW).2[0]? = some 0
    ∧ (lexW.create_translator_from mutKeysW).2.length = mutKeysW.length
    ∧ (∀ (s : Nat) (k : List Char), 1 ≤ s → mutKeysW[s]? = some k →
        (lexW.create_translator_from mutKeysW).2[s]? = some
          (match lookupA (translatorPrefixState lexW mutKeysW s).string_to_symbol k with
           | some v => v
           | none =>
             (translatorPrefixState lexW mutKeysW s).key_table.length % 2 ^ 16)
        ∧ (lookupA (translatorPrefixState lexW mutKeysW s).string_to_symbol k = none →
            (translatorPrefixState lexW mutKeysW (s + 1)).key_table =
              (translatorPrefixState lexW mutKeysW s).key_table ++ [k]))
    ∧ ∀ v ∈ (lexW.create_translator_from mutKeysW).2,
        v < (lexW.create_translator_from mutKeysW).1.key_table.length :=
  C3_translator_valid lexW mutKeysW (by decide) (by decide) (by decide)

/-- C6: the paged THFST transducer agrees with the unpaged HFST transducer
on every query, whenever the chunked tables hold the same records as the
flat tables (equal-sized nonempty chunks) and the accessed record is among
the held records; the paged result is `some` of the flat result (`none`
being the page-indexing panic, which cannot occur on held records). -/
theorem C6_thfst_matches_hfst (th : ThfstTransducer) (hf : HfstTransducer)
    (hidx : hf.index_table = th.index_tables.flatten)
    (htrans : hf.transition_table = th.transition_tables.flatten)
    (hal : hf.alphabet = th.alphabet)
    (hI : ∀ c ∈ th.index_tables, c.length = th.indexes_per_chunk)
    (hT : ∀ c ∈ th.transition_tables, c.length = th.transitions_per_chunk)
    (hpI : 0 < th.indexes_per_chunk) (hpT : 0 < th.transitions_per_chunk)
    (i sym : Nat) :
    (TARGET_TABLE ≤ i → i - TARGET_TABLE < hf.transition_table.length →
      th.is_final i = some (hf.is_final i)
      ∧ th.final_weight i = some (hf.final_weight i)
      ∧ th.has_transitions i (some sym) = some (hf.has_transitions i (some sym))
      ∧ th.has_epsilons_or_flags i = some (hf.has_epsilons_or_flags i)
      ∧ th.next i sym = some (hf.next i sym))
    ∧ (i < TARGET_TABLE → i < hf.index_table.length →
      th.is_final i = some (hf.is_final i)
      ∧ th.final_weight i = some (hf.final_weight i)
      ∧ th.has_epsilons_or_flags i = some (hf.has_epsilons_or_flags i))
    ∧ (i < TARGET_TABLE → i + sym < hf.index_table.length →
      th.has_transitions i (some sym) = some (hf.has_transitions i (some sym)))
    ∧ (i < TARGET_TABLE → i + 1 + sym < hf.index_table.length →
      th.next i sym = some (hf.next i sym))
    ∧ (i < hf.transition_table.length →
      th.take_epsilons i = some (hf.take_epsilons i)
      ∧ th.take_epsilons_and_flags i = some (hf.take_epsilons_and_flags i)
      ∧ th.take_non_epsilons i sym = some (hf.take_non_epsilons i sym)
      ∧ th.transition_input_symbol i = some (hf.transition_input_symbol i))
    ∧ th.has_transitions i none = some (hf.has_transitions i none) := by
  refine ⟨?_, ?_, ?_, ?_, ?_, rfl⟩
  · intro hTi hin
    obtain ⟨p, hca, hre⟩ := chunkAt_flatten th.transition_tables
      th.transitions_per_chunk (i - TARGET_TABLE) hT hpT (htrans ▸ hin)
    refine ⟨?_, ?_, ?_, ?_, ?_⟩
    · simp only [ThfstTransducer.is_final, HfstTransducer.is_final,
        if_pos hTi, hca, Option.map_some']
      simp [transIsFinal, transInputSymbol, transOutputSymbol, hre, htrans]
    · simp only [ThfstTransducer.final_weight, HfstTransducer.final_weight,
        if_pos hTi, hca, Option.map_some']
      simp [transWeight, hre, htrans]
    · simp only [ThfstTransducer.has_transitions, HfstTransducer.has_transitions,
        if_pos hTi, hca, Option.map_some']
      simp [transInputSymbol, hre, htrans]
    · simp only [ThfstTransducer.has_epsilons_or_flags,
        HfstTransducer.has_epsilons_or_flags, if_pos hTi, hca, Option.map_some']
      simp [transInputSymbol, hre, htrans, hal]
    · simp [ThfstTransducer.next, HfstTransducer.next, if_pos hTi]
  · intro hTi hin
    have hn : ¬TARGET_TABLE ≤ i := Nat.not_le.mpr hTi
    obtain ⟨p, hca, hre⟩ := chunkAt_flatten th.index_tables
      th.indexes_per_chunk i hI hpI (hidx ▸ hin)
    refine ⟨?_, ?_, ?_⟩
    · simp only [ThfstTransducer.is_final, HfstTransducer.is_final,
        if_neg hn, hca, Option.map_some']
      simp [idxIsFinal, idxInputSymbol, idxTarget, hre, hidx]
    · simp only [ThfstTransducer.final_weight, HfstTransducer.final_weight,
        if_neg hn, hca, Option.map_some']
      simp [idxFinalWeight, hre, hidx]
    · simp only [ThfstTransducer.has_epsilons_or_flags,
        HfstTransducer.has_epsilons_or_flags, if_neg hn, hca, Option.map_some']
      simp [idxInputSymbol, hre, hidx]
  · intro hTi hin
    have hn : ¬TARGET_TABLE ≤ i := Nat.not_le.mpr hTi
    obtain ⟨p, hca, hre⟩ := chunkAt_flatten th.index_tables
      th.indexes_per_chunk (i + sym) hI hpI (hidx ▸ hin)
    simp only [ThfstTransducer.has_transitions, HfstTransducer.has_transitions,
      if_neg hn, hca, Option.map_some']
    simp [idxInputSymbol, hre, hidx]
  · intro hTi hin
    have hn : ¬TARGET_TABLE ≤ i := Nat.not_le.mpr hTi
    obtain ⟨p, hca, hre⟩ := chunkAt_flatten th.index_tables
      th.indexes_per_chunk (i + 1 + sym) hI hpI (hidx ▸ hin)
    simp only [ThfstTransducer.next, HfstTransducer.next,
      if_neg hn, hca, Option.map_some']
    simp [idxTarget, hre, hidx]
  · intro hin
    obtain ⟨p, hca, hre⟩ := chunkAt_flatten th.transition_tables
      th.transitions_per_chunk i hT hpT (htrans ▸ hin)
    refine ⟨?_, ?_, ?_, ?_⟩
    · simp only [ThfstTransducer.take_epsilons, HfstTransducer.take_epsilons,
        hca, Option.map_some']
      simp [transInputSymbol, transSymbolTransition, transTarget,
        transOutputSymbol, transWeight, hre, htrans]
    · simp only [ThfstTransducer.take_epsilons_and_flags,
        HfstTransducer.take_epsilons_and_flags, hca, Option.map_some']
      simp [transInputSymbol, transSymbolTransition, transTarget,
        transOutputSymbol, transWeight, hre, htrans, hal]
    · simp only [ThfstTransducer.take_non_epsilons,
        HfstTransducer.take_non_epsilons, hca, Option.map_some']
      simp [transInputSymbol, transSymbolTransition, transTarget,
        transOutputSymbol, transWeight, hre, htrans]
    · simp only [ThfstTransducer.transition_input_symbol,
        HfstTransducer.transition_input_symbol, hca, Option.map_some']
      simp [transInputSymbol, hre, htrans]

/-- Witness for C6 at the chunked transducer `thfstW` and its flattening
`hfstW`, states `TARGET_TABLE + 1` and `0`, symbol `0`. -/
theorem C6_thfst_matches_hfst_witness :
    ThfstTransducer.is_final thfstW (TARGET_TABLE + 1) =
      some (HfstTransducer.is_final hfstW (TARGET_TABLE + 1))
    ∧ ThfstTransducer.is_final thfstW 0 = some (HfstTransducer.is_final hfstW 0)
    ∧ ThfstTransducer.has_transitions thfstW 0 (some 1) =
        some (HfstTransducer.has_transitions hfstW 0 (some 1))
    ∧ ThfstTransducer.next thfstW 0 0 = some (HfstTransducer.next hfstW 0 0)
    ∧ ThfstTransducer.take_epsilons thfstW 0 =
        some (HfstTransducer.take_epsilons hfstW 0) :=
  ⟨((C6_thfst_matches_hfst thfstW hfstW (by decide) (by decide) (by decide)
      (by decide) (by decide) (by decide) (by decide) (TARGET_TABLE + 1) 0).1
      (by omega) (by decide)).1,
    ((C6_thfst_matches_hfst thfstW hfstW (by decide) (by decide) (by decide)
      (by decide) (by decide) (by decide) (by decide) 0 0).2.1
      (by decide) (by decide)).1,
    ((C6_thfst_matches_hfst thfstW hfstW (by decide) (by decide) (by decide)
      (by decide) (by decide) (by decide) (by decide) 0 1).2.2.1
      (by decide) (by decide)),
    ((C6_thfst_matches_hfst thfstW hfstW (by decide) (by decide) (by decide)
      (by decide) (by decide) (by decide) (by decide) 0 0).2.2.2.1
      (by decide) (by decide)),
    ((C6_thfst_matches_hfst thfstW hfstW (by decide) (by decide) (by decide)
      (by decide) (by decide) (by decide) (by decide) 0 0).2.2.2.2.1
      (by decide)).1⟩

theorem suggest_caps_merging_eq (cf : CaseFuns)
    (search : String → SpellerConfig → List Suggestion)
    (r : String) (ws : List String) (config : SpellerConfig) :
    suggest_caps_merging cf search r ws config =
      (match config.n_best with
       | some n =>
         ((((mergedPool cf search r ws config).foldl updateBest []).map
            (fun p => Suggestion.mk p.1 p.2)).mergeSort suggLE).take n
       | none =>
         (((mergedPool cf search r ws config).foldl updateBest []).map
            (fun p => Suggestion.mk p.1 p.2)).mergeSort suggLE) := by
  unfold suggest_caps_merging
  rw [merging_fold_flat]

/-- C8: every list returned by `suggest_caps_merging` has pairwise
distinct suggestion values; each returned suggestion carries the minimum
weight attained by its value among all recased suggestions of all
searched variants; and with `n_best` set the list length is capped by
it. -/
theorem C8_merging_min_dedup (cf : CaseFuns)
    (search : String → SpellerConfig → List Suggestion)
    (ref_word : String) (words : List String) (config : SpellerConfig) :
    ((suggest_caps_merging cf search ref_word words config).map
        Suggestion.value).Nodup
    ∧ (∀ s ∈ suggest_caps_merging cf search ref_word words config,
        (∃ t ∈ mergedPool cf search ref_word words config,
          t.value = s.value ∧ t.weight = s.weight)
        ∧ ∀ t ∈ mergedPool cf search ref_word words config,
            t.value = s.value → s.weight ≤ t.weight)
    ∧ ∀ n : Nat, config.n_best = some n →
        (suggest_caps_merging cf search ref_word words config).length ≤ n := by
  obtain ⟨hnd, H⟩ :=
    fold_min (mergedPool cf search ref_word words config) [] (by simp)
  have hpremap :
      ((((mergedPool cf search ref_word words config).foldl updateBest []).map
        (fun p => Suggestion.mk p.1 p.2)).map Suggestion.value).Nodup := by
    rw [List.map_map]
    exact hnd
  have hperm := List.mergeSort_perm
    (((mergedPool cf search ref_word words config).foldl updateBest []).map
      (fun p => Suggestion.mk p.1 p.2)) suggLE
  have hsortnd :
      (((((mergedPool cf search ref_word words config).foldl updateBest []).map
        (fun p => Suggestion.mk p.1 p.2)).mergeSort suggLE).map
          Suggestion.value).Nodup :=
    ((hperm.map Suggestion.value).symm).nodup hpremap
  have hmem : ∀ s ∈ (((mergedPool cf search ref_word words config).foldl
        updateBest []).map (fun p => Suggestion.mk p.1 p.2)).mergeSort suggLE,
      (∃ t ∈ mergedPool cf search ref_word words config,
        t.value = s.value ∧ t.weight = s.weight)
      ∧ ∀ t ∈ mergedPool cf search ref_word words config,
          t.value = s.value → s.weight ≤ t.weight := by
    intro s hs
    have hs2 := hperm.mem_iff.mp hs
    obtain ⟨p, hp, hps⟩ := List.mem_map.mp hs2
    obtain ⟨hsrc, _, hmin⟩ := H p hp
    have hv : s.value = p.1 := by rw [← hps]
    have hw : s.weight = p.2 := by rw [← hps]
    constructor
    · rcases hsrc with h | h
      · simp [lookupA] at h
      · obtain ⟨t, ht, h1, h2⟩ := h
        exact ⟨t, ht, by rw [hv, h1], by rw [hw, h2]⟩
    · intro t ht htv
      rw [hw]
      exact hmin t ht (htv.trans hv)
  rw [suggest_caps_merging_eq]
  cases hnb : config.n_best with
  | some n =>
    refine ⟨?_, ?_, ?_⟩
    · rw [List.map_take]
      exact hsortnd.sublist (List.take_sublist n _)
    · intro s hs
      exact hmem s (List.mem_of_mem_take hs)
    · intro m hm
      have hnm : n = m := Option.some_inj.mp hm
      subst hnm
      rw [List.length_take]
      exact min_le_left _ _
  | none =>
    refine ⟨hsortnd, hmem, ?_⟩
    intro m hm
    cases hm

/-- Witness for C8 at the concrete case functions `cfW`, search `searchW`,
variants `["a", "b"]` and configuration `cfgW` (`n_best = 1`). -/
theorem C8_merging_min_dedup_witness :
    ((suggest_caps_merging cfW searchW "a" ["a", "b"] cfgW).map
        Suggestion.value).Nodup
    ∧ (∀ s ∈ suggest_caps_merging cfW searchW "a" ["a", "b"] cfgW,
        (∃ t ∈ mergedPool cfW searchW "a" ["a", "b"] cfgW,
          t.value = s.value ∧ t.weight = s.weight)
        ∧ ∀ t ∈ mergedPool cfW searchW "a" ["a", "b"] cfgW,
            t.value = s.value → s.weight ≤ t.weight)
    ∧ ∀ n : Nat, cfgW.n_best = some n →
        (suggest_caps_merging cfW searchW "a" ["a", "b"] cfgW).length ≤ n :=
  C8_merging_min_dedup cfW searchW "a" ["a", "b"] cfgW

/-- C7: with case handling on, `suggest_with_config` runs the merging
strategy exactly when the case-variant list has length 2 or 3 and the
non-merging strategy otherwise; with case handling off it runs a single
search on the verbatim input word. -/
theorem C7_case_dispatch (cf : CaseFuns)
    (search : String → SpellerConfig → List Suggestion)
    (kt : List String) (word : String) (config : SpellerConfig) :
    (config.case_handling = true →
      ((cf.word_variants kt word).length = 2 ∨
        (cf.word_variants kt word).length = 3) →
      suggest_with_config cf search kt word config =
        suggest_caps_merging cf search word (cf.word_variants kt word) config)
    ∧ (config.case_handling = true →
      ¬((cf.word_variants kt word).length = 2 ∨
        (cf.word_variants kt word).length = 3) →
      suggest_with_config cf search kt word config =
        suggest_caps cf search word (cf.word_variants kt word) config)
    ∧ (config.case_handling = false →
      suggest_with_config cf search kt word config = search word config) := by
  refine ⟨?_, ?_, ?_⟩
  · intro hch hlen
    simp [suggest_with_config, hch, hlen]
  · intro hch hlen
    simp [suggest_with_config, hch, hlen]
  · intro hch
    simp [suggest_with_config, suggest_single, hch]

/-- Witness for C7 at `cfW`, `searchW` and `cfgW`: the two fixed variants
of `"a"` trigger the merging strategy; switching `case_handling` off runs
the single search. -/
theorem C7_case_dispatch_witness :
    suggest_with_config cfW searchW [] "a" cfgW =
      suggest_caps_merging cfW searchW "a" (cfW.word_variants [] "a") cfgW
    ∧ suggest_with_config cfW searchW [] "a"
        { cfgW with case_handling := false } = searchW "a"
        { cfgW with case_handling := false } :=
  ⟨(C7_case_dispatch cfW searchW [] "a" cfgW).1 rfl (Or.inl rfl),
    (C7_case_dispatch cfW searchW [] "a"
      { cfgW with case_handling := false }).2.2 rfl⟩
